import Mathlib

/-
Verification of the fin_report_extractor ingestion pipeline.

The development shallowly embeds the core of the repository:
  - the normalizer ReportDataProcessor._build_metrics_from_extraction
    (src/infra/llm_based_processor.py),
  - ReportDataProcessor.process (same file),
  - the background orchestrator process_in_background and the retrieval
    endpoint get_processed_report (src/app/api/reports.py),
  - SqlAlchemyProcessedReportRepository.save and .get
    (src/infra/sqlalchemy_repository.py).

Python dictionaries are embedded as association lists in insertion order
(String keyed); a Python dict value always has pairwise distinct keys,
which appears as a Nodup hypothesis where a theorem needs it.  Optional
string fields are Option String, timestamps are abstracted to Nat, and
database tables are lists of records.  The LLM call is an external
collaborator and enters the model as a parameter: either the structured
extraction it returned or the string form of the exception it raised.
-/

/-- Container for current and previous period metric values
(core/fin_report_processors/models.py MetricValues). -/
structure MetricValues where
  current : Option String
  previous : Option String
deriving DecidableEq

/-- Structured metric data returned by the LLM
(infra/llm_based_processor.py ExtractedMetric). -/
structure ExtractedMetric where
  name : String
  current : Option String
  previous : Option String
deriving DecidableEq

/-- Complete LLM response capturing report-level details
(infra/llm_based_processor.py ExtractionResult). -/
structure ExtractionResult where
  report_id : Option String
  metrics : List ExtractedMetric
deriving DecidableEq

/-- Structured financial report data produced by the processor layer
(core/fin_report_processors/models.py ProcessedData). -/
structure ProcessedData where
  report_id : String
  data : List (String × MetricValues)
  processed_at : Nat
  error : Option String
deriving DecidableEq

/-- ORM row storing metric values associated with a processed report
(core/fin_report_processors/db_models.py ReportMetricRecord). -/
structure ReportMetricRecord where
  name : String
  current_value : Option String
  previous_value : Option String
deriving DecidableEq

/-- ORM record representing a processed report
(core/fin_report_processors/db_models.py ReportRecord); the metrics field
is the loaded relationship, in insertion order. -/
structure ReportRecord where
  id : String
  processed_at : Nat
  error : Option String
  metrics : List ReportMetricRecord
deriving DecidableEq

/-- Key list of an association-list dictionary, in insertion order. -/
def dictKeys (d : List (String × MetricValues)) : List String :=
  d.map Prod.fst

/-- Python dict lookup d[k] as an Option. -/
def lookupMetric : List (String × MetricValues) → String → Option MetricValues
  | [], _ => none
  | p :: rest, k => if p.1 = k then some p.2 else lookupMetric rest k

/-- Python assignment d[k] = v for a key already present: the value stored
under k is replaced in place, positions and keys unchanged. -/
def dictUpdate : List (String × MetricValues) → String → MetricValues → List (String × MetricValues)
  | [], _, _ => []
  | p :: rest, k, v => (if p.1 = k then (k, v) else p) :: dictUpdate rest k v

/-- MetricValues() with both fields left at their defaults. -/
def emptyMetricValues : MetricValues := ⟨none, none⟩

/-- The dict comprehension seeding the normalizer output: every schema key
mapped to empty MetricValues (llm_based_processor.py line 104). -/
def initialProcessed (schemaKeys : List String) : List (String × MetricValues) :=
  schemaKeys.map (fun metric_name => (metric_name, emptyMetricValues))

/-- Body of the proposal loop in _build_metrics_from_extraction: a proposal
whose name is a key of the accumulating dict overwrites that entry wholesale;
any other proposal is skipped. -/
def normStep (processed : List (String × MetricValues)) (metric : ExtractedMetric) :
    List (String × MetricValues) :=
  if metric.name ∈ dictKeys processed then
    dictUpdate processed metric.name ⟨metric.current, metric.previous⟩
  else
    processed

/-- ReportDataProcessor._build_metrics_from_extraction
(infra/llm_based_processor.py lines 100-116): seed with the schema keys,
then fold the proposal loop over the extracted metrics. -/
def build_metrics_from_extraction (schemaKeys : List String) (extraction : ExtractionResult) :
    List (String × MetricValues) :=
  extraction.metrics.foldl normStep (initialProcessed schemaKeys)

/-- The values carried by the last proposal named n, or empty values when no
proposal is named n.  Used to state the last-write-wins property. -/
def lastValueFor (proposals : List ExtractedMetric) (n : String) : MetricValues :=
  match (proposals.filter (fun m => m.name = n)).getLast? with
  | none => emptyMetricValues
  | some m => ⟨m.current, m.previous⟩

theorem dictUpdate_keys (d : List (String × MetricValues)) (k : String) (v : MetricValues) :
    dictKeys (dictUpdate d k v) = dictKeys d := by
  induction d with
  | nil => rfl
  | cons p rest ih =>
    by_cases h : p.1 = k
    · simp [dictUpdate, dictKeys, h] at ih ⊢
      exact ih
    · simp [dictUpdate, dictKeys, h] at ih ⊢
      exact ih

theorem normStep_keys (d : List (String × MetricValues)) (m : ExtractedMetric) :
    dictKeys (normStep d m) = dictKeys d := by
  unfold normStep
  split
  · exact dictUpdate_keys d m.name ⟨m.current, m.previous⟩
  · rfl

theorem foldl_normStep_keys (ms : List ExtractedMetric) (d : List (String × MetricValues)) :
    dictKeys (ms.foldl normStep d) = dictKeys d := by
  induction ms generalizing d with
  | nil => rfl
  | cons m rest ih =>
    rw [List.foldl_cons, ih, normStep_keys]

theorem initialProcessed_keys (s : List String) : dictKeys (initialProcessed s) = s := by
  induction s with
  | nil => rfl
  | cons a rest ih =>
    simp [initialProcessed, dictKeys] at ih ⊢
    exact ih

theorem build_metrics_keys (s : List String) (e : ExtractionResult) :
    dictKeys (build_metrics_from_extraction s e) = s := by
  unfold build_metrics_from_extraction
  rw [foldl_normStep_keys, initialProcessed_keys]

theorem lookupMetric_not_mem (d : List (String × MetricValues)) (k : String)
    (h : k ∉ dictKeys d) : lookupMetric d k = none := by
  induction d with
  | nil => rfl
  | cons p rest ih =>
    have h1 : ¬ (k = p.1 ∨ k ∈ dictKeys rest) := by
      intro hc
      apply h
      rw [dictKeys, List.map_cons, List.mem_cons]
      exact hc
    push_neg at h1
    simp only [lookupMetric]
    rw [if_neg (fun hc => h1.1 hc.symm)]
    exact ih h1.2

theorem lookupMetric_dictUpdate_self (d : List (String × MetricValues)) (k : String)
    (v : MetricValues) (h : k ∈ dictKeys d) :
    lookupMetric (dictUpdate d k v) k = some v := by
  induction d with
  | nil => simp [dictKeys] at h
  | cons p rest ih =>
    simp [dictKeys] at h
    by_cases hp : p.1 = k
    · simp [dictUpdate, hp, lookupMetric]
    · have hk : k ∈ dictKeys rest := by
        rcases h with h | h
        · exact absurd h.symm hp
        · simp [dictKeys, h]
      simp [dictUpdate, hp, lookupMetric, ih hk]

theorem lookupMetric_dictUpdate_ne (d : List (String × MetricValues)) (k n : String)
    (v : MetricValues) (h : n ≠ k) :
    lookupMetric (dictUpdate d k v) n = lookupMetric d n := by
  induction d with
  | nil => rfl
  | cons p rest ih =>
    by_cases hp : p.1 = k
    · have hn : ¬ k = n := fun hk => h hk.symm
      simp [dictUpdate, hp, lookupMetric, hn, ih]
    · simp [dictUpdate, hp, lookupMetric, ih]

theorem lookupMetric_initial (s : List String) (n : String) :
    lookupMetric (initialProcessed s) n
      = if n ∈ s then some emptyMetricValues else none := by
  induction s with
  | nil => rfl
  | cons a rest ih =>
    by_cases ha : a = n
    · simp [initialProcessed, lookupMetric, ha]
    · have hn : n ∈ a :: rest ↔ n ∈ rest := by
        simp [List.mem_cons]
        intro hna
        exact absurd hna.symm ha
      simp only [initialProcessed, List.map_cons, lookupMetric, if_neg ha]
      rw [show (rest.map fun metric_name => (metric_name, emptyMetricValues))
            = initialProcessed rest from rfl, ih]
      by_cases hm : n ∈ rest
      · rw [if_pos hm, if_pos (hn.mpr hm)]
      · rw [if_neg hm, if_neg (fun hc => hm (hn.mp hc))]

theorem lastValueFor_concat_self (ms : List ExtractedMetric) (m : ExtractedMetric)
    (n : String) (h : m.name = n) :
    lastValueFor (ms ++ [m]) n = ⟨m.current, m.previous⟩ := by
  unfold lastValueFor
  rw [List.filter_append]
  have hm : List.filter (fun x => decide (x.name = n)) [m] = [m] := by
    simp [List.filter, h]
  rw [hm, List.getLast?_concat]

theorem lastValueFor_concat_ne (ms : List ExtractedMetric) (m : ExtractedMetric)
    (n : String) (h : m.name ≠ n) :
    lastValueFor (ms ++ [m]) n = lastValueFor ms n := by
  unfold lastValueFor
  rw [List.filter_append]
  have hm : List.filter (fun x => decide (x.name = n)) [m] = [] := by
    simp [List.filter, h]
  rw [hm, List.append_nil]

theorem lookupMetric_foldl_normStep (s : List String) (ms : List ExtractedMetric) (n : String) :
    lookupMetric (ms.foldl normStep (initialProcessed s)) n
      = if n ∈ s then some (lastValueFor ms n) else none := by
  induction ms using List.reverseRecOn with
  | nil =>
    simp only [List.foldl_nil, lookupMetric_initial, lastValueFor, List.filter_nil,
      List.getLast?_nil]
  | append_singleton ms m ih =>
    rw [List.foldl_append, List.foldl_cons, List.foldl_nil]
    have hkeys : dictKeys (ms.foldl normStep (initialProcessed s)) = s := by
      rw [foldl_normStep_keys, initialProcessed_keys]
    by_cases hmn : m.name = n
    · by_cases hns : n ∈ s
      · have hmem : m.name ∈ dictKeys (ms.foldl normStep (initialProcessed s)) := by
          rw [hkeys, hmn]; exact hns
        rw [normStep, if_pos hmem, hmn,
          lookupMetric_dictUpdate_self _ _ _ (by rw [hkeys]; exact hns),
          if_pos hns, lastValueFor_concat_self ms m n hmn]
      · have hmem : m.name ∉ dictKeys (ms.foldl normStep (initialProcessed s)) := by
          rw [hkeys, hmn]; exact hns
        rw [normStep, if_neg hmem, ih, if_neg hns, if_neg hns]
    · have hstep : lookupMetric (normStep (ms.foldl normStep (initialProcessed s)) m) n
          = lookupMetric (ms.foldl normStep (initialProcessed s)) n := by
        unfold normStep
        split
        · exact lookupMetric_dictUpdate_ne _ _ _ _ (fun hc => hmn hc.symm)
        · rfl
      rw [hstep, ih, lastValueFor_concat_ne ms m n hmn]

/-- C1: for every metrics schema and every list of extracted proposals
(empty, duplicated or unknown names included), the key list of the
normalized output of _build_metrics_from_extraction is exactly the key
list of the schema; in particular the key sets coincide. -/
theorem normalize_output_keys_eq_schema_keys (schemaKeys : List String)
    (extraction : ExtractionResult) :
    dictKeys (build_metrics_from_extraction schemaKeys extraction) = schemaKeys :=
  build_metrics_keys schemaKeys extraction

/-- C2: the normalized entry for a name that is a schema key carries exactly
the current/previous fields of the last proposal with that name (duplicates
overwrite wholesale; with no proposal of that name the entry stays empty),
and a name that is not a schema key has no entry at all: such proposals are
discarded, and the normalizer is a total function, so no error is raised. -/
theorem normalize_entry_last_proposal_wins (schemaKeys : List String)
    (extraction : ExtractionResult) (n : String) :
    lookupMetric (build_metrics_from_extraction schemaKeys extraction) n
      = if n ∈ schemaKeys then some (lastValueFor extraction.metrics n) else none :=
  lookupMetric_foldl_normStep schemaKeys extraction.metrics n

/-- session.get(ReportRecord, id): primary-key lookup in the table. -/
def dbGetRecord : List ReportRecord → String → Option ReportRecord
  | [], _ => none
  | r :: rest, i => if r.id = i then some r else dbGetRecord rest i

/-- In-place replacement of the row whose primary key matches, as the ORM
does when mutating a loaded record inside a transaction. -/
def dbUpdate : List ReportRecord → ReportRecord → List ReportRecord
  | [], _ => []
  | r :: rest, newRec => (if r.id = newRec.id then newRec else r) :: dbUpdate rest newRec

/-- The ORM row built from one entry of ProcessedData.data
(sqlalchemy_repository.py lines 44-50). -/
def metricRowOf (kv : String × MetricValues) : ReportMetricRecord :=
  ⟨kv.1, kv.2.current, kv.2.previous⟩

/-- The metric rows attached by save after record.metrics.clear(): the data
entries when error is None, and nothing otherwise
(sqlalchemy_repository.py lines 40-50). -/
def rowsOf (p : ProcessedData) : List ReportMetricRecord :=
  if p.error = none then p.data.map metricRowOf else []

/-- SqlAlchemyProcessedReportRepository.save (sqlalchemy_repository.py lines
22-50): insert a fresh record when the id is absent, otherwise overwrite
processed_at and error of the existing record; either way the metrics
collection is cleared and rebuilt from the incoming data. -/
def save (db : List ReportRecord) (p : ProcessedData) : List ReportRecord :=
  match dbGetRecord db p.report_id with
  | none => db ++ [⟨p.report_id, p.processed_at, p.error, rowsOf p⟩]
  | some _ => dbUpdate db ⟨p.report_id, p.processed_at, p.error, rowsOf p⟩

/-- Python dict insertion d[k] = v: overwrite in place when the key exists,
append at the end otherwise. -/
def dictInsert (d : List (String × MetricValues)) (k : String) (v : MetricValues) :
    List (String × MetricValues) :=
  if k ∈ dictKeys d then dictUpdate d k v else d ++ [(k, v)]

/-- The dict comprehension in SqlAlchemyProcessedReportRepository.get that
rebuilds the metrics mapping from the loaded rows. -/
def dictOfRows (rows : List ReportMetricRecord) : List (String × MetricValues) :=
  rows.foldl (fun d row => dictInsert d row.name ⟨row.current_value, row.previous_value⟩) []

/-- The dictionary entry denoted by one ORM metric row. -/
def pairOfRow (row : ReportMetricRecord) : String × MetricValues :=
  (row.name, ⟨row.current_value, row.previous_value⟩)

/-- SqlAlchemyProcessedReportRepository.get (sqlalchemy_repository.py lines
52-76): point lookup returning the record converted back to ProcessedData,
or none when the id is unknown.  Named repoGet because a plain get is
ambiguous with library names. -/
def repoGet (db : List ReportRecord) (report_id : String) : Option ProcessedData :=
  match dbGetRecord db report_id with
  | none => none
  | some record => some ⟨record.id, dictOfRows record.metrics, record.processed_at, record.error⟩

theorem dbGetRecord_append_of_none (db : List ReportRecord) (r : ReportRecord) (i : String)
    (h : dbGetRecord db i = none) :
    dbGetRecord (db ++ [r]) i = if r.id = i then some r else none := by
  induction db with
  | nil => rfl
  | cons q rest ih =>
    simp only [dbGetRecord] at h
    by_cases hq : q.id = i
    · rw [if_pos hq] at h
      exact absurd h (by simp)
    · rw [if_neg hq] at h
      simp only [List.cons_append, dbGetRecord, if_neg hq]
      exact ih h

theorem dbGetRecord_dbUpdate_self (db : List ReportRecord) (newRec : ReportRecord) :
    dbGetRecord (dbUpdate db newRec) newRec.id
      = (dbGetRecord db newRec.id).map (fun _ => newRec) := by
  induction db with
  | nil => rfl
  | cons q rest ih =>
    by_cases hq : q.id = newRec.id
    · simp [dbUpdate, dbGetRecord, hq]
    · simp only [dbUpdate, dbGetRecord, if_neg hq]
      exact ih

theorem repoGet_save_self (db : List ReportRecord) (p : ProcessedData) :
    repoGet (save db p) p.report_id
      = some ⟨p.report_id, dictOfRows (rowsOf p), p.processed_at, p.error⟩ := by
  unfold save
  cases h : dbGetRecord db p.report_id with
  | none =>
    unfold repoGet
    rw [dbGetRecord_append_of_none db _ p.report_id h]
    simp
  | some r =>
    unfold repoGet
    have hupd := dbGetRecord_dbUpdate_self db ⟨p.report_id, p.processed_at, p.error, rowsOf p⟩
    rw [show (⟨p.report_id, p.processed_at, p.error, rowsOf p⟩ : ReportRecord).id
          = p.report_id from rfl, h] at hupd
    rw [hupd]
    rfl

theorem foldl_dictInsert_disjoint (rows : List ReportMetricRecord)
    (acc : List (String × MetricValues))
    (hnd : (rows.map ReportMetricRecord.name).Nodup)
    (hdisj : ∀ row ∈ rows, row.name ∉ dictKeys acc) :
    rows.foldl (fun d row => dictInsert d row.name ⟨row.current_value, row.previous_value⟩) acc
      = acc ++ rows.map pairOfRow := by
  induction rows generalizing acc with
  | nil => simp
  | cons row rest ih =>
    have hmem : row.name ∉ dictKeys acc := hdisj row (by simp)
    rw [List.map_cons, List.nodup_cons] at hnd
    have hstep : dictInsert acc row.name ⟨row.current_value, row.previous_value⟩
        = acc ++ [pairOfRow row] := by
      unfold dictInsert
      rw [if_neg hmem]
      rfl
    rw [List.foldl_cons, hstep, ih (acc ++ [pairOfRow row]) hnd.2]
    · simp
    · intro row2 hrow2
      have hne : row2.name ≠ row.name := by
        intro hc
        exact hnd.1 (hc ▸ List.mem_map_of_mem ReportMetricRecord.name hrow2)
      have hnacc : row2.name ∉ dictKeys acc := hdisj row2 (List.mem_cons_of_mem row hrow2)
      rw [dictKeys, List.map_append]
      simp [pairOfRow, dictKeys] at hnacc ⊢
      exact ⟨hnacc, hne⟩

theorem dictOfRows_map_of_nodup (l : List (String × MetricValues))
    (h : (l.map Prod.fst).Nodup) :
    dictOfRows (l.map metricRowOf) = l := by
  have hnames : (l.map metricRowOf).map ReportMetricRecord.name = l.map Prod.fst := by
    rw [List.map_map]
    rfl
  have hpairs : (l.map metricRowOf).map pairOfRow = l := by
    rw [List.map_map]
    have : (pairOfRow ∘ metricRowOf) = id := by
      funext kv
      rfl
    rw [this, List.map_id]
  unfold dictOfRows
  rw [foldl_dictInsert_disjoint (l.map metricRowOf) [] (by rw [hnames]; exact h)
    (by intro row hrow; simp [dictKeys]), hpairs, List.nil_append]

/-- The mutual-exclusion shape of a stored record: either no error, or no
metric rows. -/
def recordOk (r : ReportRecord) : Prop :=
  r.error = none ∨ r.metrics = []

theorem rowsOf_ok (p : ProcessedData) : p.error = none ∨ rowsOf p = [] := by
  by_cases h : p.error = none
  · exact Or.inl h
  · exact Or.inr (by unfold rowsOf; rw [if_neg h])

theorem mem_dbUpdate (db : List ReportRecord) (newRec r : ReportRecord)
    (h : r ∈ dbUpdate db newRec) : r = newRec ∨ r ∈ db := by
  induction db with
  | nil => exact absurd h (by simp [dbUpdate])
  | cons q rest ih =>
    simp only [dbUpdate, List.mem_cons] at h
    rcases h with h | h
    · by_cases hq : q.id = newRec.id
      · rw [if_pos hq] at h
        exact Or.inl h
      · rw [if_neg hq] at h
        exact Or.inr (by rw [h]; exact List.mem_cons_self q rest)
    · rcases ih h with h2 | h2
      · exact Or.inl h2
      · exact Or.inr (List.mem_cons_of_mem q h2)

theorem save_preserves_ok (db : List ReportRecord) (p : ProcessedData)
    (hdb : ∀ r ∈ db, recordOk r) : ∀ r ∈ save db p, recordOk r := by
  intro r hr
  have hnew : recordOk ⟨p.report_id, p.processed_at, p.error, rowsOf p⟩ := rowsOf_ok p
  unfold save at hr
  cases h : dbGetRecord db p.report_id with
  | none =>
    rw [h] at hr
    rcases List.mem_append.mp hr with h2 | h2
    · exact hdb r h2
    · rw [List.mem_singleton.mp h2]
      exact hnew
  | some q =>
    rw [h] at hr
    rcases mem_dbUpdate db _ r hr with h2 | h2
    · rw [h2]
      exact hnew
    · exact hdb r h2

/-- The repository state produced by a sequence of save calls starting from
an empty table: the reachable states of the persistence layer. -/
def runSaves (ps : List ProcessedData) : List ReportRecord :=
  ps.foldl save []

theorem foldl_save_ok (ps : List ProcessedData) (db : List ReportRecord)
    (hdb : ∀ r ∈ db, recordOk r) : ∀ r ∈ ps.foldl save db, recordOk r := by
  induction ps generalizing db with
  | nil => exact hdb
  | cons p rest ih =>
    rw [List.foldl_cons]
    exact ih (save db p) (save_preserves_ok db p hdb)

theorem runSaves_ok (ps : List ProcessedData) : ∀ r ∈ runSaves ps, recordOk r :=
  foldl_save_ok ps [] (by intro r hr; exact absurd hr (List.not_mem_nil r))

theorem dbGetRecord_mem (db : List ReportRecord) (i : String) (r : ReportRecord)
    (h : dbGetRecord db i = some r) : r ∈ db := by
  induction db with
  | nil => exact absurd h (by simp [dbGetRecord])
  | cons q rest ih =>
    simp only [dbGetRecord] at h
    by_cases hq : q.id = i
    · rw [if_pos hq] at h
      rw [← Option.some_inj.mp h]
      exact List.mem_cons_self q rest
    · rw [if_neg hq] at h
      exact List.mem_cons_of_mem q (ih h)

/-- C5: in every repository state reachable by a sequence of save calls,
every report returned by get has its error absent or its metrics mapping
empty — even when some ProcessedData passed to save carried both an error
and non-empty data, because save skips the metric rows whenever error is
set. -/
theorem persisted_error_excludes_metrics (ps : List ProcessedData) (i : String)
    (p : ProcessedData) (h : repoGet (runSaves ps) i = some p) :
    p.error = none ∨ p.data = [] := by
  unfold repoGet at h
  cases hrec : dbGetRecord (runSaves ps) i with
  | none =>
    rw [hrec] at h
    exact absurd h (by simp)
  | some record =>
    rw [hrec] at h
    have hp := Option.some_inj.mp h
    have hok := runSaves_ok ps record (dbGetRecord_mem _ _ _ hrec)
    rcases hok with hok | hok
    · exact Or.inl (by rw [← hp]; exact hok)
    · refine Or.inr ?_
      rw [← hp]
      show dictOfRows record.metrics = []
      rw [hok]
      rfl

/-- C5 witness: a save carrying both an error and non-empty data still
yields a stored report satisfying the exclusion invariant. -/
theorem persisted_error_excludes_metrics_witness :
    (some "boom" : Option String) = none ∨ ([] : List (String × MetricValues)) = [] :=
  persisted_error_excludes_metrics
    [⟨"id1", [("cash", ⟨some "1", none⟩)], 0, some "boom"⟩] "id1"
    ⟨"id1", [], 0, some "boom"⟩ (by decide)

theorem repoGet_double_save (r1 r2 : ProcessedData)
    (hnd : (r2.data.map Prod.fst).Nodup)
    (hterm : r2.error = none ∨ r2.data = []) :
    repoGet (save (save [] r1) r2) r2.report_id = some r2 := by
  rw [repoGet_save_self]
  have hdata : dictOfRows (rowsOf r2) = r2.data := by
    rcases hterm with hterm | hterm
    · unfold rowsOf
      rw [if_pos hterm]
      exact dictOfRows_map_of_nodup r2.data hnd
    · have hrows : rowsOf r2 = [] := by
        unfold rowsOf
        rw [hterm]
        split <;> rfl
      rw [hrows, hterm]
      rfl
  rw [hdata]

/-- C6 counterexample: two saves under one id where the second report
carries an error together with non-empty metrics; get then returns an empty
metrics mapping, not the metrics of the second report, so the claim fails
as literally stated over all pairs of reports. -/
theorem save_overwrite_claim_counterexample :
    (⟨"id1", [("cash", ⟨some "1", none⟩)], 0, none⟩ : ProcessedData).report_id
        = (⟨"id1", [("debt", ⟨some "2", none⟩)], 1, some "boom"⟩ : ProcessedData).report_id
      ∧ (⟨"id1", [("cash", ⟨some "1", none⟩)], 0, none⟩ : ProcessedData).data
        ≠ (⟨"id1", [("debt", ⟨some "2", none⟩)], 1, some "boom"⟩ : ProcessedData).data
      ∧ repoGet (save (save [] ⟨"id1", [("cash", ⟨some "1", none⟩)], 0, none⟩)
            ⟨"id1", [("debt", ⟨some "2", none⟩)], 1, some "boom"⟩) "id1"
        ≠ some ⟨"id1", [("debt", ⟨some "2", none⟩)], 1, some "boom"⟩ := by
  decide

/-- C6 amended: for reports r1, r2 with the same id and different metrics,
where r2 is a valid terminal record (its error absent or its metrics
mapping empty, the §3 invariant) with pairwise distinct metric names,
save(r1) then save(r2) leaves get(id) returning exactly r2 — its metrics
replaced wholesale, with no residual rows from r1. -/
theorem save_overwrite_replaces_wholesale (r1 r2 : ProcessedData)
    (_hid : r1.report_id = r2.report_id)
    (_hne : r1.data ≠ r2.data)
    (hnd : (r2.data.map Prod.fst).Nodup)
    (hterm : r2.error = none ∨ r2.data = []) :
    repoGet (save (save [] r1) r2) r2.report_id = some r2 :=
  repoGet_double_save r1 r2 hnd hterm

/-- C6 witness: overwriting a stored report with different metrics under
the same id leaves exactly the second report retrievable. -/
theorem save_overwrite_replaces_wholesale_witness :
    repoGet (save (save [] ⟨"id1", [("cash", ⟨some "1", none⟩)], 0, none⟩)
          ⟨"id1", [("debt", ⟨some "2", none⟩)], 1, none⟩) "id1"
      = some ⟨"id1", [("debt", ⟨some "2", none⟩)], 1, none⟩ :=
  save_overwrite_replaces_wholesale
    ⟨"id1", [("cash", ⟨some "1", none⟩)], 0, none⟩
    ⟨"id1", [("debt", ⟨some "2", none⟩)], 1, none⟩
    (by decide) (by decide) (by decide) (Or.inl rfl)

/-- C7 counterexample: a report carrying an error together with non-empty
metrics does not round-trip through two identical saves; get returns it
with an empty metrics mapping instead. -/
theorem save_idempotent_claim_counterexample :
    repoGet (save (save [] ⟨"id2", [("cash", ⟨some "5", some ""⟩)], 3, some "boom"⟩)
          ⟨"id2", [("cash", ⟨some "5", some ""⟩)], 3, some "boom"⟩) "id2"
      ≠ some ⟨"id2", [("cash", ⟨some "5", some ""⟩)], 3, some "boom"⟩ := by
  decide

/-- C7 amended: for every report r that is a valid terminal record (its
error absent or its metrics mapping empty, the §3 invariant) with pairwise
distinct metric names, saving r twice leaves get(r.report_id) returning a
value equal to r; MetricValues round-trip exactly, so an absent value stays
distinct from an empty string. -/
theorem save_idempotent_roundtrip (r : ProcessedData)
    (hnd : (r.data.map Prod.fst).Nodup)
    (hterm : r.error = none ∨ r.data = []) :
    repoGet (save (save [] r) r) r.report_id = some r :=
  repoGet_double_save r r hnd hterm

/-- C7 witness: a report whose metric has an empty-string current value and
an absent previous value round-trips through two saves unchanged. -/
theorem save_idempotent_roundtrip_witness :
    repoGet (save (save [] ⟨"id3", [("cash", ⟨some "", none⟩)], 2, none⟩)
          ⟨"id3", [("cash", ⟨some "", none⟩)], 2, none⟩) "id3"
      = some ⟨"id3", [("cash", ⟨some "", none⟩)], 2, none⟩ :=
  save_idempotent_roundtrip ⟨"id3", [("cash", ⟨some "", none⟩)], 2, none⟩
    (by decide) (Or.inl rfl)

/-- Result type of ReportDataProcessor.process (llm_based_processor.py
lines 72-98): ProcessedData on success, and the caught exception returned
as a value on LLM failure.  The exception is represented by the string that
str() would produce for it. -/
inductive ProcessorResult where
  | exception (message : String)
  | ok (data : ProcessedData)
deriving DecidableEq

/-- ReportDataProcessor.process: the LLM call is an external collaborator,
so its outcome is a parameter — Except.error carries the str() form of the
exception it raised, Except.ok the structured extraction it returned.  On
failure the exception is returned as a value; on success the extraction is
normalized against the schema keys and wrapped in ProcessedData with a
freshly generated report_id and the current time, error left absent. -/
def process (schemaKeys : List String) (llmOutcome : Except String ExtractionResult)
    (freshId : String) (now : Nat) : ProcessorResult :=
  match llmOutcome with
  | Except.error exc => ProcessorResult.exception exc
  | Except.ok extraction =>
      ProcessorResult.ok ⟨freshId, build_metrics_from_extraction schemaKeys extraction, now, none⟩

/-- The terminal report process_in_background hands to the repository
(app/api/reports.py lines 130-146): on a processor exception, a fresh
ProcessedData under the generated id with empty data and error set to the
str() of the exception (its processed_at defaulting to the current time);
on success, model_copy of the processor output with report_id overwritten
by the generated id. -/
def terminalReport (processed : ProcessorResult) (generated_id : String)
    (failureTime : Nat) : ProcessedData :=
  match processed with
  | ProcessorResult.exception exc => ⟨generated_id, [], failureTime, some exc⟩
  | ProcessorResult.ok p => ⟨generated_id, p.data, p.processed_at, p.error⟩

/-- process_in_background after the processor returned: build the terminal
report and save it.  The temp-file cleanup that follows the save touches no
persisted state and is not modelled. -/
def process_in_background (db : List ReportRecord) (processed : ProcessorResult)
    (generated_id : String) (failureTime : Nat) : List ReportRecord :=
  save db (terminalReport processed generated_id failureTime)

/-- One full background run: ReportDataProcessor.process followed by
process_in_background, over an arbitrary prior repository state. -/
def runPipeline (db : List ReportRecord) (schemaKeys : List String)
    (llmOutcome : Except String ExtractionResult) (freshId : String) (now : Nat)
    (generated_id : String) (failureTime : Nat) : List ReportRecord :=
  process_in_background db (process schemaKeys llmOutcome freshId now) generated_id failureTime

/-- C3: whenever the extractor fails (its exception being caught and
returned as a value, never re-raised — the run is a total function), the
run still reaches the repository save, and get on the generated id returns
the failed terminal report: error set to the str() of the exception and an
empty metrics mapping. -/
theorem extractor_failure_persists_error_report (db : List ReportRecord)
    (schemaKeys : List String) (exc : String) (freshId : String) (now : Nat)
    (generated_id : String) (failureTime : Nat) :
    repoGet (runPipeline db schemaKeys (Except.error exc) freshId now generated_id failureTime)
        generated_id
      = some ⟨generated_id, [], failureTime, some exc⟩ := by
  unfold runPipeline process process_in_background terminalReport
  rw [show generated_id
        = (⟨generated_id, [], failureTime, some exc⟩ : ProcessedData).report_id from rfl,
    repoGet_save_self]
  have hrows : rowsOf ⟨generated_id, [], failureTime, some exc⟩ = [] := by
    unfold rowsOf
    split <;> rfl
  rw [hrows]
  rfl

theorem repoGet_runPipeline_ok (db : List ReportRecord) (schemaKeys : List String)
    (hnd : schemaKeys.Nodup) (extraction : ExtractionResult) (freshId : String)
    (now : Nat) (generated_id : String) (failureTime : Nat) :
    repoGet (runPipeline db schemaKeys (Except.ok extraction) freshId now generated_id failureTime)
        generated_id
      = some ⟨generated_id, build_metrics_from_extraction schemaKeys extraction, now, none⟩ := by
  unfold runPipeline process process_in_background terminalReport
  rw [show generated_id
        = (⟨generated_id, build_metrics_from_extraction schemaKeys extraction, now, none⟩
            : ProcessedData).report_id from rfl,
    repoGet_save_self]
  have hrows : rowsOf ⟨generated_id, build_metrics_from_extraction schemaKeys extraction, now, none⟩
      = (build_metrics_from_extraction schemaKeys extraction).map metricRowOf := by
    unfold rowsOf
    rfl
  have hbm : ((build_metrics_from_extraction schemaKeys extraction).map Prod.fst).Nodup := by
    have hk : (build_metrics_from_extraction schemaKeys extraction).map Prod.fst = schemaKeys :=
      build_metrics_keys schemaKeys extraction
    rw [hk]
    exact hnd
  rw [hrows, dictOfRows_map_of_nodup _ hbm]

/-- C4: whenever the extractor succeeds, the persisted report retrievable
under the generated id has error absent, report_id equal to the id the
upload handler generated, and a metrics mapping keyed exactly by the
configured schema. -/
theorem extractor_success_persists_schema_keyed_report (db : List ReportRecord)
    (schemaKeys : List String) (hnd : schemaKeys.Nodup) (extraction : ExtractionResult)
    (freshId : String) (now : Nat) (generated_id : String) (failureTime : Nat) :
    ∃ p, repoGet (runPipeline db schemaKeys (Except.ok extraction) freshId now generated_id
            failureTime) generated_id = some p
      ∧ p.error = none ∧ p.report_id = generated_id ∧ dictKeys p.data = schemaKeys := by
  refine ⟨⟨generated_id, build_metrics_from_extraction schemaKeys extraction, now, none⟩,
    ?_, rfl, rfl, ?_⟩
  · exact repoGet_runPipeline_ok db schemaKeys hnd extraction freshId now generated_id failureTime
  · exact build_metrics_keys schemaKeys extraction

/-- C4 witness: a successful run over a one-key schema persists a report
under the generated id, keyed exactly by the schema. -/
theorem extractor_success_persists_schema_keyed_report_witness :
    ∃ p, repoGet (runPipeline [] ["cash"]
            (Except.ok ⟨none, [⟨"cash", some "100", some "90"⟩]⟩) "fresh" 5 "gid" 6) "gid"
          = some p
      ∧ p.error = none ∧ p.report_id = "gid" ∧ dictKeys p.data = ["cash"] :=
  extractor_success_persists_schema_keyed_report [] ["cash"] (by decide)
    ⟨none, [⟨"cash", some "100", some "90"⟩]⟩ "fresh" 5 "gid" 6

/-- Caller-facing outcome of the retrieval endpoint: the 404 branch, the
500 branch with its constant generic detail string (which carries no error
text), and the success payload built from the stored report with the error
field excluded. -/
inductive ApiResponse where
  | notFound
  | processingFailed
  | payload (report_id : String) (processed_at : Nat) (data : List (String × MetricValues))
deriving DecidableEq

/-- Python truthiness of an Optional[str]: None and the empty string are
falsy, every other string is truthy. -/
def isTruthy : Option String → Bool
  | none => false
  | some s => ! (s == "")

/-- get_processed_report (app/api/reports.py lines 162-187): 404 when the
repository has no record, the generic 500 when the stored error is truthy,
and otherwise the payload of report_id, processed_at and data. -/
def get_processed_report (db : List ReportRecord) (report_id : String) : ApiResponse :=
  match repoGet db report_id with
  | none => ApiResponse.notFound
  | some processed =>
      if isTruthy processed.error then ApiResponse.processingFailed
      else ApiResponse.payload processed.report_id processed.processed_at processed.data

/-- C8 counterexample: a stored record whose error is the empty string is
non-absent, yet the endpoint serves the success payload rather than the
processing-failed response, so the claim fails as literally stated. -/
theorem retrieval_error_branch_counterexample :
    repoGet (save [] ⟨"id4", [], 7, some ""⟩) "id4" = some ⟨"id4", [], 7, some ""⟩
      ∧ (some "" : Option String) ≠ none
      ∧ get_processed_report (save [] ⟨"id4", [], 7, some ""⟩) "id4"
        ≠ ApiResponse.processingFailed := by
  decide

/-- C8 amended: if the repository returns absent the endpoint responds not
found, and if the stored record has a truthy error — non-absent and
non-empty — the endpoint responds with the generic processing-failed
answer, a constructor carrying no text, so the raw error string never
reaches the caller. -/
theorem retrieval_response_contract (db : List ReportRecord) (i : String) :
    (repoGet db i = none → get_processed_report db i = ApiResponse.notFound)
      ∧ (∀ p s, repoGet db i = some p → p.error = some s → s ≠ "" →
          get_processed_report db i = ApiResponse.processingFailed) := by
  constructor
  · intro h
    unfold get_processed_report
    rw [h]
  · intro p s hp hs hne
    unfold get_processed_report
    rw [hp]
    have ht : isTruthy p.error = true := by
      rw [hs]
      simp [isTruthy]
      exact hne
    exact if_pos ht

/-- C8 witness: an unknown id is answered with not found, and a stored
record with a non-empty error is answered with the generic failure. -/
theorem retrieval_response_contract_witness :
    get_processed_report [] "id5" = ApiResponse.notFound
      ∧ get_processed_report (save [] ⟨"id5", [], 8, some "boom"⟩) "id5"
        = ApiResponse.processingFailed :=
  ⟨(retrieval_response_contract [] "id5").1 (by decide),
   (retrieval_response_contract (save [] ⟨"id5", [], 8, some "boom"⟩) "id5").2
     ⟨"id5", [], 8, some "boom"⟩ "boom" (by decide) (by decide) (by decide)⟩

/-- C9: the failed-run error field is the str() of the exception, which can
be the empty string; the endpoint tests that field for truthiness, not for
absence, so a run that failed with an empty exception string persists a
record with error set to the empty string, and retrieval serves the success
payload — the empty metrics mapping and the processed_at timestamp — instead
of the processing-failed response. -/
theorem empty_string_error_served_as_success (db : List ReportRecord)
    (schemaKeys : List String) (freshId : String) (now : Nat) (generated_id : String)
    (failureTime : Nat) :
    repoGet (runPipeline db schemaKeys (Except.error "") freshId now generated_id failureTime)
        generated_id
      = some ⟨generated_id, [], failureTime, some ""⟩
      ∧ get_processed_report
          (runPipeline db schemaKeys (Except.error "") freshId now generated_id failureTime)
          generated_id
        = ApiResponse.payload generated_id failureTime [] := by
  have hget : repoGet (runPipeline db schemaKeys (Except.error "") freshId now generated_id
      failureTime) generated_id = some ⟨generated_id, [], failureTime, some ""⟩ := by
    unfold runPipeline process process_in_background terminalReport
    rw [show generated_id
          = (⟨generated_id, [], failureTime, some ""⟩ : ProcessedData).report_id from rfl,
      repoGet_save_self]
    have hrows : rowsOf ⟨generated_id, [], failureTime, some ""⟩ = [] := by
      unfold rowsOf
      split <;> rfl
    rw [hrows]
    rfl
  refine ⟨hget, ?_⟩
  unfold get_processed_report
  rw [hget]
  rfl

/-- C10: the report_id of the persisted terminal report is always the id
generated by the upload handler, whatever the extractor did: the failure
branch builds the report under the generated id, and the success branch
overwrites the processor-generated id through model_copy; moreover the
report_id proposed by the LLM inside ExtractionResult is never read, so
replacing it changes nothing in the run.  Two runs differing only in
extractor output therefore persist their reports under the same
caller-visible id. -/
theorem report_id_independent_of_extractor (db : List ReportRecord)
    (schemaKeys : List String) (freshId : String) (now : Nat) (generated_id : String)
    (failureTime : Nat) :
    (∀ llmOutcome : Except String ExtractionResult,
        (terminalReport (process schemaKeys llmOutcome freshId now) generated_id
            failureTime).report_id = generated_id)
      ∧ (∀ (metrics : List ExtractedMetric) (rid1 rid2 : Option String),
          runPipeline db schemaKeys (Except.ok ⟨rid1, metrics⟩) freshId now generated_id
              failureTime
            = runPipeline db schemaKeys (Except.ok ⟨rid2, metrics⟩) freshId now generated_id
              failureTime) := by
  constructor
  · intro llmOutcome
    cases llmOutcome <;> rfl
  · intro metrics rid1 rid2
    rfl
